import Mathlib

/-!
Verification of the content extraction and conversion pipeline of the
atomix-to-notion crawler (sources: `src/utils/scraper.ts`, the
`NotionClient`/`processNode` converter, `src/config/index.ts`).

JavaScript strings are modelled as `List Char` (`Str`); every string
operation the code uses (`trim`, `split`, `replace`, `includes`,
`startsWith`, `endsWith`, `toLocaleLowerCase`, the `[^a-zA-Z0-9]`
strip) is defined here structurally so that concrete runs evaluate
inside the kernel.  The HTML documents the code queries (via cheerio /
puppeteer) are modelled as query oracles (`PageDoc`, `ListingPage`):
functions from a selector to exactly the data the code reads from the
matched elements.  The external date libraries (`dayjs`, JS `Date`)
are modelled as an environment `DateEnv`; `Option Int` is a timestamp
where `none` models a JS `Invalid Date`.
-/

set_option maxRecDepth 4000

/-- JS strings, modelled as lists of characters. -/
abbrev Str := List Char

/-- Whitespace as trimmed by JS `String.prototype.trim` (the ASCII part). -/
def isJsSpace (c : Char) : Bool :=
  c == ' ' || c == '\t' || c == '\n' || c == '\r' || c == '\x0b' || c == '\x0c'

/-- JS `s.trim()`: strip leading and trailing whitespace. -/
def jsTrim (s : Str) : Str :=
  ((s.dropWhile isJsSpace).reverse.dropWhile isJsSpace).reverse

/-- JS `s.startsWith(p)`. -/
def jsStartsWith (p s : Str) : Bool := p.isPrefixOf s

/-- JS `s.endsWith(p)`. -/
def jsEndsWith (p s : Str) : Bool := p.reverse.isPrefixOf s.reverse

/-- JS `s.includes(sub)`: substring containment. -/
def strContains (s sub : Str) : Bool :=
  if sub.isPrefixOf s then true
  else
    match s with
    | [] => false
    | _ :: rest => strContains rest sub

/-- Auxiliary splitter: structural recursion on a fuel bound that callers
instantiate with the length of the string, which suffices because each
step consumes at least one character.  `cur` is the (reversed) current
field. -/
def splitOnFuel (sep : Str) : Nat → Str → Str → List Str
  | _, [], cur => [cur.reverse]
  | 0, s, cur => [cur.reverse ++ s]
  | fuel + 1, c :: rest, cur =>
    if sep.isPrefixOf (c :: rest) then
      cur.reverse :: splitOnFuel sep fuel (List.drop sep.length (c :: rest)) []
    else
      splitOnFuel sep fuel rest (c :: cur)

/-- JS `s.split(sep)` for a non-empty string separator (the code only
splits on `", "`, `" "`, `"-"` and `"/"`). -/
def jsSplit (s sep : Str) : List Str :=
  if sep.isEmpty then [s] else splitOnFuel sep s.length s []

/-- JS `s.replace(pat, rep)` with a string pattern: replaces the first
occurrence only. -/
def jsReplaceFirst : Str → Str → Str → Str
  | [], pat, rep => if pat.isEmpty then rep else []
  | c :: rest, pat, rep =>
    if pat.isPrefixOf (c :: rest) then rep ++ List.drop pat.length (c :: rest)
    else c :: jsReplaceFirst rest pat rep

/-- ASCII lowercase of one character (JS `toLocaleLowerCase` on the
ASCII range the code feeds it). -/
def jsToLowerChar (c : Char) : Char :=
  if 65 ≤ c.toNat && c.toNat ≤ 90 then Char.ofNat (c.toNat + 32) else c

/-- JS `s.toLocaleLowerCase()`. -/
def jsToLower (s : Str) : Str := s.map jsToLowerChar

/-- The character class `[a-zA-Z0-9]` of the regex in the `entryId`
fallback (`replace(/[^a-zA-Z0-9]/g, "")` keeps exactly these). -/
def isAsciiAlphanum (c : Char) : Bool :=
  (48 ≤ c.toNat && c.toNat ≤ 57) ||
  (65 ≤ c.toNat && c.toNat ≤ 90) ||
  (97 ≤ c.toNat && c.toNat ≤ 122)

/-! ## The Notion block model (`NotionClient.createPage`, `processNode`) -/

/-- The `annotations` object of a rich-text span (`bold`, `italic`,
`underline`), as built by the emphasis branch of `processNode`. -/
structure Annotations where
  bold : Bool
  italic : Bool
  underline : Bool
deriving DecidableEq

/-- One rich-text span: `{ type: "text", text: { content, link? }, annotations? }`.
`annotations = none` models a span created without an `annotations`
property. -/
structure RichText where
  content : Str
  link : Option Str
  annotations : Option Annotations
deriving DecidableEq

/-- A plain text span as pushed for a trimmed `TextNode` or a separator
space. -/
def RichText.plain (s : Str) : RichText := ⟨s, none, none⟩

/-- The content blocks `processNode` emits: paragraph blocks with
rich-text spans, and external image blocks. -/
inductive NotionBlock where
  | paragraph (richText : List RichText)
  | image (url : Str)
deriving DecidableEq

/-- The parsed HTML tree `processNode` walks (node-html-parser yields
uppercase `tagName`s, so element tags here are `"P"`, `"A"`, `"IMG"`,
`"B"`, `"STRONG"`, `"I"`, `"EM"`, `"U"`, …). -/
inductive HNode where
  | text (s : Str)
  | elem (tag : Str) (attrs : List (Str × Str)) (children : List HNode)

/-- `node.getAttribute(nm)`. -/
def getAttr (attrs : List (Str × Str)) (nm : Str) : Option Str :=
  (attrs.find? (fun p => p.1 == nm)).map Prod.snd

/-- `node.text` of node-html-parser: the concatenated text of all
descendant text nodes. -/
def textContentList : List HNode → Str
  | [] => []
  | .text s :: cs => s ++ textContentList cs
  | .elem _ _ children :: cs => textContentList children ++ textContentList cs

/-- Total text length of a span list. -/
def spanTextLength : List RichText → Nat
  | [] => 0
  | rt :: rest => rt.content.length + spanTextLength rest

/-- Total span text length of one block (`0` for an image block). -/
def blockTextLength : NotionBlock → Nat
  | .paragraph rts => spanTextLength rts
  | .image _ => 0

/-- The paragraph-splitting loop of the `"P"` case of `processNode`:
before adding the next span, flush the working buffer whenever adding
it would exceed `maxLen`; finally flush a non-empty remainder.
`cur`/`curLen` are the `currentRichText`/`currentLength` state. -/
def splitSpans (maxLen : Nat) : List RichText → List RichText → Nat → List NotionBlock
  | [], cur, _ => if cur.isEmpty then [] else [.paragraph cur]
  | rt :: rest, cur, curLen =>
    let tLen := rt.content.length
    if maxLen < curLen + tLen then
      .paragraph cur :: splitSpans maxLen rest [rt] tLen
    else
      splitSpans maxLen rest (cur ++ [rt]) (curLen + tLen)

/-- The separator condition `richTextArray.length > 0 &&
!richTextArray[last].text.content.endsWith(" ")`. -/
def needsSeparator (rta : List RichText) : Bool :=
  match rta.getLast? with
  | none => false
  | some rt => !(jsEndsWith [' '] rt.content)

/-- Push a single `" "` span when the separator condition holds. -/
def pushSep (rta : List RichText) : List RichText :=
  if needsSeparator rta then rta ++ [RichText.plain [' ']] else rta

/-- The one-flag annotation object of the emphasis branch, spread onto a
span's existing annotations (`{...richText.annotations, ...annotation}`). -/
def mergeAnn (tag : Str) (old : Option Annotations) : Annotations :=
  let o := old.getD ⟨false, false, false⟩
  if tag == "B".data || tag == "STRONG".data then { o with bold := true }
  else if tag == "I".data || tag == "EM".data then { o with italic := true }
  else { o with underline := true }

/-- The converter state threaded through the recursion: the rich-text
array currently being filled, and the `contentBlocks` emitted so far. -/
abbrev ConvState := List RichText × List NotionBlock

mutual

/-- `processNode` of `NotionClient.createPage`: dispatch on the node,
mutating (here: threading) the enclosing rich-text array and the
global block list. -/
def processNode (maxRich : Nat) : HNode → ConvState → ConvState
  | .text s, (rta, blocks) =>
    let t := jsTrim s
    if t.isEmpty then (rta, blocks) else (rta ++ [RichText.plain t], blocks)
  | .elem tag attrs children, (rta, blocks) =>
    if tag == "P".data then
      let res := processList maxRich children ([], blocks)
      if res.1.isEmpty then (rta, res.2)
      else (rta, res.2 ++ splitSpans maxRich res.1 [] 0)
    else if tag == "A".data then
      let linkText := jsTrim (textContentList children)
      let href := (getAttr attrs "href".data).getD []
      if linkText.isEmpty then (rta, blocks)
      else
        let rta1 := pushSep rta ++ [⟨linkText, some href, none⟩]
        (pushSep rta1, blocks)
    else if tag == "IMG".data then
      let src := match getAttr attrs "src".data with
        | none => []
        | some s => jsToLower s
      if src.isEmpty then (rta, blocks) else (rta, blocks ++ [.image src])
    else if tag == "B".data || tag == "STRONG".data || tag == "I".data ||
        tag == "EM".data || tag == "U".data then
      let res := processList maxRich children ([], blocks)
      let crt := res.1.map (fun rt => { rt with annotations := some (mergeAnn tag rt.annotations) })
      let rta1 := pushSep rta ++ crt
      let rta2 := if needsSeparator crt then rta1 ++ [RichText.plain [' ']] else rta1
      (rta2, res.2)
    else
      processList maxRich children (rta, blocks)

/-- `node.childNodes.forEach(child => processNode(child, rta))`. -/
def processList (maxRich : Nat) : List HNode → ConvState → ConvState
  | [], acc => acc
  | c :: cs, acc => processList maxRich cs (processNode maxRich c acc)

end

/-- The top-level walk of `createPage`: every root child is processed
with a fresh default rich-text array (whose spans are therefore
discarded), while `contentBlocks` accumulates across children. -/
def convertContent (maxRich : Nat) (nodes : List HNode) : List NotionBlock :=
  nodes.foldl (fun blocks n => (processNode maxRich n ([], blocks)).2) []

/-- Modelled from the spec: `src/utils/constants.ts` is imported by the
converter but is not among the sources; the spec only calls this "a
fixed rich-text length ceiling", so the destination system's documented
per-span limit is used.  All general theorems below are parametric in
the ceiling. -/
def MAX_RICH_TEXT_LENGTH : Nat := 2000

/-- Modelled from the spec: `src/utils/constants.ts` is imported by the
converter but is not among the sources; the spec only calls this "a
fixed ceiling" on the number of blocks, so the destination system's
documented per-request children limit is used.  All general theorems
below are parametric in the ceiling. -/
def MAX_BODY_LENGTH : Nat := 100

/-- The `children` array `createPage` hands to the destination:
`contentBlocks.slice(0, MAX_BODY_LENGTH)` when `entry.content` is
truthy (plus the redundant second length check), `[]` otherwise. -/
def createPageChildren (content : Option (List HNode)) : List NotionBlock :=
  let children := match content with
    | none => []
    | some nodes => (convertContent MAX_RICH_TEXT_LENGTH nodes).take MAX_BODY_LENGTH
  if MAX_BODY_LENGTH < children.length then children.take MAX_BODY_LENGTH else children

/-! ## The article scraper (`scrapeArticle` and its helpers) -/

/-- An article page as the cheerio-backed `scrapeArticle` queries it:
for a selector, the first matched element's text, each matched
element's inner markup, and the first matched element's `class`
attribute (`""` when there is no match or no attribute, as produced by
`|| ""` in the code). -/
structure PageDoc where
  textOf : Str → Str
  htmlsOf : Str → List Str
  classOf : Str → Str

/-- The selector loop of `getTextFromSelectors` over the already-split
selector list: first selector whose first match has non-empty trimmed
text wins. -/
def textChain (doc : PageDoc) : List Str → Str
  | [] => []
  | sel :: rest =>
    let text := jsTrim (doc.textOf sel)
    if text.isEmpty then textChain doc rest else text

/-- `getTextFromSelectors` of `scrapeArticle`. -/
def getTextFromSelectors (doc : PageDoc) (selectorString : Str) : Str :=
  if selectorString.isEmpty then []
  else textChain doc (jsSplit selectorString ", ".data)

/-- `contents.join("\n\n")`. -/
def joinBlankLine (ls : List Str) : Str := List.intercalate "\n\n".data ls

/-- The selector loop of `getContentFromSelectors`: first selector with
a non-empty list of non-empty trimmed element markups wins; its value
is those markups joined with a blank line. -/
def contentChain (doc : PageDoc) : List Str → Str
  | [] => []
  | sel :: rest =>
    let contents := ((doc.htmlsOf sel).map jsTrim).filter (fun h => !h.isEmpty)
    if contents.isEmpty then contentChain doc rest else joinBlankLine contents

/-- `getContentFromSelectors` of `scrapeArticle`. -/
def getContentFromSelectors (doc : PageDoc) (selectorString : Str) : Str :=
  if selectorString.isEmpty then []
  else contentChain doc (jsSplit selectorString ", ".data)

/-- The inner token loop of the `entryId` extraction: scan the class
tokens for one starting with `"post-"`; the candidate id is
`classItem.split("-")[1] || ""` (for the source named Atomix, formatted
as `` `${source.url}/?p=${...}` ``); an empty candidate keeps
scanning. -/
def postTokenId (sourceName sourceUrl : Str) : List Str → Str
  | [] => []
  | tok :: rest =>
    if jsStartsWith "post-".data tok then
      let seg := (jsSplit tok "-".data).getD 1 []
      let eid := if sourceName == "Atomix".data then sourceUrl ++ "/?p=".data ++ seg else seg
      if eid.isEmpty then postTokenId sourceName sourceUrl rest else eid
    else postTokenId sourceName sourceUrl rest

/-- The outer selector loop of the `entryId` extraction: first selector
whose first match's class attribute yields a non-empty candidate wins. -/
def entryIdFromSelectors (doc : PageDoc) (sourceName sourceUrl : Str) : List Str → Str
  | [] => []
  | sel :: rest =>
    let eid := postTokenId sourceName sourceUrl (jsSplit (doc.classOf sel) " ".data)
    if eid.isEmpty then entryIdFromSelectors doc sourceName sourceUrl rest else eid

/-- The URL fallback of the `entryId` extraction: the final `/`-segment
of the article URL with all non-alphanumeric characters stripped
(empty when the URL ends in `/`). -/
def urlFallbackId (url : Str) : Str :=
  let parts := jsSplit url "/".data
  let lastPart := parts.getLastD []
  if lastPart.isEmpty then [] else lastPart.filter isAsciiAlphanum

/-- The full `entryId` derivation of `scrapeArticle`: the selector-chain
class scan when the rule configures an `entryId` selector and the scan
yields a non-empty id, otherwise the URL fallback. -/
def scrapeEntryId (doc : PageDoc) (entryIdSelector sourceName sourceUrl url : Str) : Str :=
  let fromSel :=
    if entryIdSelector.isEmpty then []
    else entryIdFromSelectors doc sourceName sourceUrl (jsSplit entryIdSelector ", ".data)
  if !fromSel.isEmpty then fromSel else urlFallbackId url

/-- Claim reading of the `entryId` derivation, named after the spec's
words for comparison with `scrapeEntryId` (not translated from the
source): a class token `post-X` counts only when `X` is a non-empty
all-digit numeric suffix, and that suffix is the id (for Atomix the
query-parameter URL); otherwise the URL fallback applies. -/
def claimPostTokenId (sourceName sourceUrl : Str) : List Str → Str
  | [] => []
  | tok :: rest =>
    if jsStartsWith "post-".data tok then
      let suffix := tok.drop 5
      if !suffix.isEmpty && suffix.all Char.isDigit then
        if sourceName == "Atomix".data then sourceUrl ++ "/?p=".data ++ suffix else suffix
      else claimPostTokenId sourceName sourceUrl rest
    else claimPostTokenId sourceName sourceUrl rest

/-- Claim reading of the full derivation (see `claimPostTokenId`). -/
def claimEntryId (doc : PageDoc) (entryIdSelector sourceName sourceUrl url : Str) : Str :=
  let fromSel :=
    if entryIdSelector.isEmpty then []
    else
      (jsSplit entryIdSelector ", ".data).foldl
        (fun acc sel =>
          if acc.isEmpty then
            claimPostTokenId sourceName sourceUrl (jsSplit (doc.classOf sel) " ".data)
          else acc)
        []
  if !fromSel.isEmpty then fromSel else urlFallbackId url

/-! ## Date parsing (`scrapeArticle`) -/

/-- The external date libraries.  `dayjsParse text fmt` is
`dayjs(text, fmt)`: `some t` when the result `isValid()`, `none`
otherwise.  `nowTime` is `dayjs().toDate()` at extraction time.
`newDate text` is `new Date(text)`: `none` models an Invalid Date
(a `Date` whose time value is NaN). -/
structure DateEnv where
  dayjsParse : Str → Str → Option Int
  nowTime : Int
  newDate : Str → Option Int

/-- The per-source date-text normalization: the source named Atomix gets
`dateText.replace(".", "").trim()` — JS `replace` with a string pattern
removes only the first occurrence of `"."`. -/
def atomixNormalizeDate (s : Str) : Str := jsTrim (jsReplaceFirst s ".".data [])

/-- `normalizeDateText` applied on the format-pattern path of
`scrapeArticle`. -/
def normalizeDateText (sourceName s : Str) : Str :=
  if sourceName == "Atomix".data then atomixNormalizeDate s else s

/-- The claim's reading of the Atomix normalization (not translated from
the source): strip trailing period characters. -/
def stripTrailingPeriods (s : Str) : Str :=
  (s.reverse.dropWhile (· == '.')).reverse

/-- The date computation of `scrapeArticle`: with a truthy `dateFormat`
and truthy `dateText`, normalize per source and parse with the pattern,
falling back to `dayjs().toDate()` when invalid; otherwise
`new Date(dateText)` (which can be an Invalid Date). -/
def computeArticleDate (env : DateEnv) (dateFormat : Option Str) (sourceName dateText : Str) :
    Option Int :=
  match dateFormat with
  | some fmt =>
    if !fmt.isEmpty && !dateText.isEmpty then
      match env.dayjsParse (normalizeDateText sourceName dateText) fmt with
      | some t => some t
      | none => some env.nowTime
    else env.newDate dateText
  | none => env.newDate dateText

/-! ## Link discovery (`getArticleLinks`) -/

/-- One listing page as `getArticleLinks` observes it.  `linkWaitOk`:
`page.waitForSelector(linkSelector)` resolves (times out / throws when
`false`, caught by the inner try which breaks the loop).  `hrefs`: the
`href` attribute of each element matching the link selector.
`nextWaitOk`: the un-guarded `page.waitForSelector(nextPageSelector)`
resolves (when `false` it throws a timeout error that escapes to the
outer catch).  `nextFound`: `page.$(nextPageSelector)` is non-null.
`navigateOk`: the click-and-wait of either pagination mode succeeds
(its failure is caught by the inner try which breaks the loop). -/
structure ListingPage where
  linkWaitOk : Bool
  hrefs : List (Option Str)
  nextWaitOk : Bool
  nextFound : Bool
  navigateOk : Bool

/-- Crawler limits from `src/config/index.ts`. -/
structure CrawlerConfig where
  maxPages : Nat
  maxArticlesPerRun : Nat

/-- The defaults of `config.crawler` (`MAX_PAGES` 10, `MAX_ARTICLES_PER_RUN` 100). -/
def defaultCrawlerConfig : CrawlerConfig := ⟨10, 100⟩

/-- The `page.evaluate` extraction: for each matched element with a
truthy `href`, the href itself when it starts with `"http"`, otherwise
`` `${baseUrl}/${href}` ``. -/
def extractPageLinks (sourceUrl : Str) (hrefs : List (Option Str)) : List Str :=
  hrefs.filterMap fun h =>
    match h with
    | none => none
    | some href =>
      if href.isEmpty then none
      else some (if jsStartsWith "http".data href then href else sourceUrl ++ [ '/' ] ++ href)

/-- The pagination `while` loop of `getArticleLinks`.  The fuel is
`maxPages + 1 - currentPage`, so `fuel = 0` is the loop condition
`currentPage > maxPages` failing.  `world p` is listing page number
`p`.  Returns the loop's outcome — `Except.error` models an exception
escaping to the outer catch — paired with the number of pages whose
links were extracted. -/
def linksLoop (world : Nat → ListingPage) (sourceUrl : Str) (nextPageSelector : Option Str) :
    Nat → Nat → List Str → Except Unit (List Str) × Nat
  | 0, _, acc => (.ok acc, 0)
  | fuel + 1, currentPage, acc =>
    let pg := world currentPage
    if !pg.linkWaitOk then (.ok acc, 0)
    else
      let acc1 := acc ++ extractPageLinks sourceUrl pg.hrefs
      match nextPageSelector with
      | none => (.ok acc1, 1)
      | some _ =>
        if !pg.nextWaitOk then (.error (), 1)
        else if pg.nextFound then
          if pg.navigateOk then
            let r := linksLoop world sourceUrl nextPageSelector fuel (currentPage + 1) acc1
            (r.1, r.2 + 1)
          else (.ok acc1, 1)
        else (.ok acc1, 1)

/-- `[...new Set(links)]`: deduplicate keeping first occurrences in
insertion order. -/
def dedupeKeepFirst (seen : List Str) : List Str → List Str
  | [] => []
  | l :: rest =>
    if seen.contains l then dedupeKeepFirst seen rest
    else l :: dedupeKeepFirst (seen ++ [l]) rest

/-- The URL filter applied after deduplication. -/
def isValidLink (l : Str) : Bool :=
  strContains l "http".data && !(strContains l "#".data) &&
    !(strContains l "javascript:".data)

/-- `getArticleLinks`: fetch the listing (a failed fetch throws to the
outer catch, which returns `[]`), run the pagination loop (an escaped
exception also yields `[]`), then deduplicate, filter and truncate to
`maxArticlesPerRun`. -/
def getArticleLinks (cfg : CrawlerConfig) (world : Nat → ListingPage) (fetchOk : Bool)
    (sourceUrl : Str) (nextPageSelector : Option Str) : List Str :=
  if !fetchOk then []
  else
    match (linksLoop world sourceUrl nextPageSelector cfg.maxPages 1 []).1 with
    | .error _ => []
    | .ok links => ((dedupeKeepFirst [] links).filter isValidLink).take cfg.maxArticlesPerRun

/-- The number of listing pages the loop extracts links from. -/
def linkPagesVisited (cfg : CrawlerConfig) (world : Nat → ListingPage) (sourceUrl : Str)
    (nextPageSelector : Option Str) : Nat :=
  (linksLoop world sourceUrl nextPageSelector cfg.maxPages 1 []).2

/-! ## General helper lemmas -/

theorem dropWhile_eq_self_of {p : Char → Bool} {l : Str} (h : ∀ x ∈ l, p x = false) :
    l.dropWhile p = l := by
  cases l with
  | nil => rfl
  | cons x xs => simp [List.dropWhile, h x (by simp)]

theorem jsTrim_of_no_space {l : Str} (h : ∀ x ∈ l, isJsSpace x = false) : jsTrim l = l := by
  unfold jsTrim
  rw [dropWhile_eq_self_of h, dropWhile_eq_self_of (by simpa using h), List.reverse_reverse]

/-- Concatenation of the spans of a block list, in emission order. -/
def spansOfBlocks : List NotionBlock → List RichText
  | [] => []
  | .paragraph rts :: rest => rts ++ spansOfBlocks rest
  | .image _ :: rest => spansOfBlocks rest

theorem spanTextLength_append (a b : List RichText) :
    spanTextLength (a ++ b) = spanTextLength a + spanTextLength b := by
  induction a with
  | nil => simp [spanTextLength]
  | cons rt rest ih => simp [spanTextLength, ih]; omega

/-- The split loop loses no span and reorders none: the concatenation of
the spans of all emitted blocks is the working buffer followed by the
remaining input. -/
theorem splitSpans_flatten (maxLen : Nat) (spans cur : List RichText) (curLen : Nat) :
    spansOfBlocks (splitSpans maxLen spans cur curLen) = cur ++ spans := by
  induction spans generalizing cur curLen with
  | nil =>
    by_cases h : cur.isEmpty
    · simp [splitSpans, h, List.isEmpty_iff.mp h, spansOfBlocks]
    · simp [splitSpans, h, spansOfBlocks]
  | cons rt rest ih =>
    simp only [splitSpans]
    by_cases h : maxLen < curLen + rt.content.length
    · simp [h, spansOfBlocks, ih]
    · simp [h, ih]

/-- When every individual span fits the ceiling, every emitted block
fits the ceiling (the flush-before-add discipline needs the buffer
invariant `spanTextLength cur = curLen ≤ maxLen`). -/
theorem splitSpans_bound (maxLen : Nat) (spans cur : List RichText) (curLen : Nat)
    (h : ∀ rt ∈ spans, rt.content.length ≤ maxLen)
    (hinv : spanTextLength cur = curLen) (hle : curLen ≤ maxLen) :
    ∀ b ∈ splitSpans maxLen spans cur curLen, blockTextLength b ≤ maxLen := by
  induction spans generalizing cur curLen with
  | nil =>
    intro b hb
    by_cases hc : cur.isEmpty <;> simp [splitSpans, hc] at hb
    subst hb
    simp [blockTextLength, hinv, hle]
  | cons rt rest ih =>
    intro b hb
    simp only [splitSpans] at hb
    by_cases hover : maxLen < curLen + rt.content.length
    · simp only [hover, if_true] at hb
      rcases List.mem_cons.mp hb with hb | hb
      · subst hb; simp [blockTextLength, hinv, hle]
      · exact ih [rt] rt.content.length (fun x hx => h x (by simp [hx]))
          (by simp [spanTextLength]) (h rt (by simp)) b hb
    · simp only [hover, if_false] at hb
      exact ih (cur ++ [rt]) (curLen + rt.content.length)
        (fun x hx => h x (by simp [hx]))
        (by simp [spanTextLength_append, hinv, spanTextLength])
        (by omega) b hb

/-! ## C2 -/

/-- C2: the block sequence handed to the destination as the page's
children has length at most `MAX_BODY_LENGTH`, and it is a prefix of
the full converted block sequence — truncation drops only trailing
blocks, never interior ones. -/
theorem C2_children_bounded_prefix (content : Option (List HNode)) :
    (createPageChildren content).length ≤ MAX_BODY_LENGTH ∧
    ∃ rest, (match content with
      | none => ([] : List NotionBlock)
      | some nodes => convertContent MAX_RICH_TEXT_LENGTH nodes) =
        createPageChildren content ++ rest := by
  cases content with
  | none => exact ⟨by simp [createPageChildren, MAX_BODY_LENGTH], [], by simp [createPageChildren]⟩
  | some nodes =>
    have hlen : ((convertContent MAX_RICH_TEXT_LENGTH nodes).take MAX_BODY_LENGTH).length ≤
        MAX_BODY_LENGTH := List.length_take_le _ _
    have hif : createPageChildren (some nodes) =
        (convertContent MAX_RICH_TEXT_LENGTH nodes).take MAX_BODY_LENGTH := by
      simp only [createPageChildren]
      rw [if_neg (by omega)]
    refine ⟨by rw [hif]; exact hlen, (convertContent MAX_RICH_TEXT_LENGTH nodes).drop MAX_BODY_LENGTH, ?_⟩
    rw [hif]
    simp [List.take_append_drop]

/-! ## C7 -/

theorem linksLoop_visited_le (world : Nat → ListingPage) (surl : Str)
    (next : Option Str) :
    ∀ fuel cp acc, (linksLoop world surl next fuel cp acc).2 ≤ fuel := by
  intro fuel
  induction fuel with
  | zero => intro cp acc; simp [linksLoop]
  | succ f ih =>
    intro cp acc
    have hrec := ih (cp + 1) (acc ++ extractPageLinks surl (world cp).hrefs)
    simp only [linksLoop]
    cases hw : (world cp).linkWaitOk with
    | false => simp
    | true =>
      cases next with
      | none => simp
      | some sel =>
        cases hnw : (world cp).nextWaitOk with
        | false => simp
        | true =>
          cases hnf : (world cp).nextFound with
          | false => simp
          | true =>
            cases hnav : (world cp).navigateOk with
            | false => simp
            | true =>
              simp only [Bool.not_true, Bool.false_eq_true, if_false, if_true]
              omega

theorem linksLoop_visited_eq (world : Nat → ListingPage) (surl : Str) (sel : Str)
    (h : ∀ p, (world p).linkWaitOk = true ∧ (world p).nextWaitOk = true ∧
      (world p).nextFound = true ∧ (world p).navigateOk = true) :
    ∀ fuel cp acc, (linksLoop world surl (some sel) fuel cp acc).2 = fuel := by
  intro fuel
  induction fuel with
  | zero => intro cp acc; simp [linksLoop]
  | succ f ih =>
    intro cp acc
    obtain ⟨h1, h2, h3, h4⟩ := h cp
    simp [linksLoop, h1, h2, h3, h4, ih]

/-- C7: the pagination loop of `getArticleLinks` (a total function here,
defined by recursion on the remaining page budget) extracts links from
at most `maxPages` listing pages; and when a next-page control is
configured and present on every page, with every wait and navigation
succeeding, it visits exactly `maxPages` pages and then stops. -/
theorem C7_pagination_bounded :
    (∀ (cfg : CrawlerConfig) (world : Nat → ListingPage) (surl : Str) (next : Option Str),
      linkPagesVisited cfg world surl next ≤ cfg.maxPages) ∧
    (∀ (cfg : CrawlerConfig) (world : Nat → ListingPage) (surl sel : Str),
      (∀ p, (world p).linkWaitOk = true ∧ (world p).nextWaitOk = true ∧
        (world p).nextFound = true ∧ (world p).navigateOk = true) →
      linkPagesVisited cfg world surl (some sel) = cfg.maxPages) :=
  ⟨fun cfg world surl next => linksLoop_visited_le world surl next cfg.maxPages 1 [],
   fun cfg world surl sel h => linksLoop_visited_eq world surl sel h cfg.maxPages 1 []⟩

/-- A listing page on which everything succeeds and the next-page
control is always present. -/
def alwaysNextPage : ListingPage :=
  { linkWaitOk := true, hrefs := [some "https://s/a".data],
    nextWaitOk := true, nextFound := true, navigateOk := true }

/-- Witness for C7: with the default configuration (10 pages) and a
next-page control present on every page, exactly 10 pages are visited. -/
theorem C7_pagination_bounded_witness :
    linkPagesVisited defaultCrawlerConfig (fun _ => alwaysNextPage) "https://s".data
      (some "nx".data) = defaultCrawlerConfig.maxPages :=
  C7_pagination_bounded.2 defaultCrawlerConfig (fun _ => alwaysNextPage) "https://s".data
    "nx".data (fun _ => ⟨rfl, rfl, rfl, rfl⟩)

/-! ## C1 -/

/-- A single text node longer than the rich-text ceiling. -/
def bigText : Str := List.replicate 2001 'a'

theorem jsTrim_bigText : jsTrim bigText = bigText :=
  jsTrim_of_no_space (by
    intro x hx
    rw [List.eq_of_mem_replicate hx]
    decide)

theorem bigText_length : bigText.length = 2001 := by
  rw [bigText, List.length_replicate]

theorem bigText_not_empty : bigText.isEmpty = false := by
  rw [Bool.eq_false_iff]
  intro h
  have h2 := congrArg List.length (List.isEmpty_iff.mp h)
  rw [bigText_length] at h2
  simp at h2

/-- Converting one paragraph holding one text node that alone exceeds
the ceiling: the loop flushes the (empty) buffer and then emits the
oversized span as a block of its own. -/
theorem convert_single_long_text (maxR : Nat) (s : Str) (ht : jsTrim s = s)
    (hne : s.isEmpty = false) (hlen : maxR < s.length) :
    convertContent maxR [HNode.elem "P".data [] [HNode.text s]] =
      [NotionBlock.paragraph [], NotionBlock.paragraph [RichText.plain s]] := by
  simp [convertContent, processNode, processList, splitSpans, ht, hne, hlen, RichText.plain]

/-- C1 counterexample: a paragraph whose single text node has 2001
characters is emitted as an empty paragraph block followed by a
paragraph block of total span length 2001, which exceeds
`MAX_RICH_TEXT_LENGTH`.  The flush-before-add loop never splits a
single oversized span, so the claimed per-block ceiling fails (and an
empty leading block appears). -/
theorem C1_counterexample :
    createPageChildren (some [HNode.elem "P".data [] [HNode.text bigText]]) =
      [NotionBlock.paragraph [], NotionBlock.paragraph [RichText.plain bigText]] ∧
    blockTextLength (NotionBlock.paragraph [RichText.plain bigText]) = 2001 ∧
    MAX_RICH_TEXT_LENGTH < 2001 := by
  have hconv := convert_single_long_text MAX_RICH_TEXT_LENGTH bigText jsTrim_bigText
    bigText_not_empty (by rw [bigText_length]; decide)
  refine ⟨?_, ?_, by decide⟩
  · simp only [createPageChildren, hconv]
    rw [List.take_of_length_le (by simp [MAX_BODY_LENGTH])]
    rw [if_neg (by simp [MAX_BODY_LENGTH])]
  · simp [blockTextLength, spanTextLength, RichText.plain, bigText_length]

/-- C1 (amended): provided every individual span fits the ceiling, every
paragraph block emitted for one logical paragraph has total span text
length at most the ceiling; and unconditionally, concatenating the
spans of all blocks emitted for one logical paragraph, in emission
order, yields exactly the paragraph's collected span sequence — no
loss, no reordering. -/
theorem C1_amended (maxLen : Nat) (spans : List RichText)
    (h : ∀ rt ∈ spans, rt.content.length ≤ maxLen) :
    (∀ b ∈ splitSpans maxLen spans [] 0, blockTextLength b ≤ maxLen) ∧
    spansOfBlocks (splitSpans maxLen spans [] 0) = spans :=
  ⟨splitSpans_bound maxLen spans [] 0 h rfl (Nat.zero_le maxLen),
   by simpa using splitSpans_flatten maxLen spans [] 0⟩

/-- Spans used to witness the amended C1. -/
def demoSpans : List RichText :=
  [RichText.plain "abc".data, RichText.plain "de".data, RichText.plain "fgh".data]

theorem C1_amended_witness :
    (∀ b ∈ splitSpans 5 demoSpans [] 0, blockTextLength b ≤ 5) ∧
    spansOfBlocks (splitSpans 5 demoSpans [] 0) = demoSpans :=
  C1_amended 5 demoSpans (by decide)

/-! ## C8 -/

/-- `<p><b>hello</b> world</p>` as parsed by node-html-parser. -/
def c8Input : List HNode :=
  [HNode.elem "P".data [] [HNode.elem "B".data [] [HNode.text "hello".data],
    HNode.text " world".data]]

/-- C8 counterexample: converting `<p><b>hello</b> world</p>` yields ONE
paragraph block with THREE spans — `"hello"` annotated bold, a
separator `" "` span inserted by the emphasis branch, and `"world"`
(the text node is trimmed) — not the claimed two spans `"hello"` and
`" world"`. -/
theorem C8_counterexample :
    createPageChildren (some c8Input) =
      [NotionBlock.paragraph [⟨"hello".data, none, some ⟨true, false, false⟩⟩,
        RichText.plain [' '], RichText.plain "world".data]] ∧
    [NotionBlock.paragraph [⟨"hello".data, none, some ⟨true, false, false⟩⟩,
        RichText.plain [' '], RichText.plain "world".data]] ≠
      [NotionBlock.paragraph [⟨"hello".data, none, some ⟨true, false, false⟩⟩,
        (⟨" world".data, none, none⟩ : RichText)]] := by decide

/-- C8 (amended): converting `<p><b>hello</b> world</p>` yields exactly
one paragraph block (no extra blocks) holding three spans in order:
`"hello"` with the bold annotation, an unannotated separator `" "`
span, and the unannotated trimmed text `"world"`; their concatenated
text is `"hello world"`. -/
theorem C8_amended :
    createPageChildren (some c8Input) =
      [NotionBlock.paragraph [⟨"hello".data, none, some ⟨true, false, false⟩⟩,
        RichText.plain [' '], RichText.plain "world".data]] ∧
    "hello".data ++ [' '] ++ "world".data = "hello world".data := by decide

/-! ## C9 -/

mutual

/-- `processNode` only appends to the global block list: its output
blocks are the incoming blocks followed by the blocks it produces on
an empty block list (and the rich-text result does not depend on the
incoming blocks). -/
theorem processNode_blocks_split (maxR : Nat) (n : HNode) (rta : List RichText)
    (blocks : List NotionBlock) :
    processNode maxR n (rta, blocks) =
      ((processNode maxR n (rta, [])).1, blocks ++ (processNode maxR n (rta, [])).2) := by
  cases n with
  | text s =>
    simp only [processNode]
    by_cases h : (jsTrim s).isEmpty <;> simp [h]
  | elem tag attrs children =>
    simp only [processNode]
    cases hP : tag == "P".data with
    | true =>
      rw [processList_blocks_split maxR children [] blocks]
      by_cases hres : (processList maxR children ([], [])).1.isEmpty <;>
        simp [hres, List.append_assoc]
    | false =>
      cases hA : tag == "A".data with
      | true =>
        by_cases hlt : (jsTrim (textContentList children)).isEmpty <;> simp [hlt]
      | false =>
        cases hI : tag == "IMG".data with
        | true =>
          cases hsrc : getAttr attrs "src".data with
          | none => simp
          | some s =>
            by_cases hse : (jsToLower s).isEmpty <;> simp [hsrc, hse]
        | false =>
          cases hEm : (tag == "B".data || tag == "STRONG".data || tag == "I".data ||
              tag == "EM".data || tag == "U".data) with
          | true =>
            rw [processList_blocks_split maxR children [] blocks]
            by_cases hns : needsSeparator ((processList maxR children ([], [])).1.map
                (fun rt => { rt with annotations := some (mergeAnn tag rt.annotations) })) <;>
              simp [hns]
          | false =>
            simp only [Bool.false_eq_true, if_false]
            exact processList_blocks_split maxR children rta blocks

/-- List version of `processNode_blocks_split`. -/
theorem processList_blocks_split (maxR : Nat) (ns : List HNode) (rta : List RichText)
    (blocks : List NotionBlock) :
    processList maxR ns (rta, blocks) =
      ((processList maxR ns (rta, [])).1, blocks ++ (processList maxR ns (rta, [])).2) := by
  cases ns with
  | nil => simp [processList]
  | cons c cs =>
    simp only [processList]
    rw [processNode_blocks_split maxR c rta blocks]
    rcases hc : processNode maxR c (rta, []) with ⟨p1, p2⟩
    rw [processList_blocks_split maxR cs p1 (blocks ++ p2),
      processList_blocks_split maxR cs p1 p2]
    simp [List.append_assoc]

end

/-- The blocks one root child contributes (fresh rich-text array, empty
block list). -/
def topBlocks (maxR : Nat) (n : HNode) : List NotionBlock := (processNode maxR n ([], [])).2

/-- Concatenation of the contributions of a list of root children. -/
def topBlocksList (maxR : Nat) : List HNode → List NotionBlock
  | [] => []
  | n :: ns => topBlocks maxR n ++ topBlocksList maxR ns

theorem topBlocksList_append (maxR : Nat) (xs ys : List HNode) :
    topBlocksList maxR (xs ++ ys) = topBlocksList maxR xs ++ topBlocksList maxR ys := by
  induction xs with
  | nil => simp [topBlocksList]
  | cons n ns ih => simp [topBlocksList, ih]

theorem convertContent_foldl (maxR : Nat) (nodes : List HNode) :
    ∀ blocks, nodes.foldl (fun bs n => (processNode maxR n ([], bs)).2) blocks =
      blocks ++ topBlocksList maxR nodes := by
  induction nodes with
  | nil => intro blocks; simp [topBlocksList]
  | cons n ns ih =>
    intro blocks
    simp only [List.foldl_cons]
    rw [processNode_blocks_split maxR n [] blocks]
    rw [ih]
    simp [topBlocksList, topBlocks, List.append_assoc]

/-- The top-level conversion is the in-document-order concatenation of
each root child's block contribution. -/
theorem convertContent_eq (maxR : Nat) (nodes : List HNode) :
    convertContent maxR nodes = topBlocksList maxR nodes := by
  simpa using convertContent_foldl maxR nodes []

/-- The contribution of a root-level `<img>`: one standalone image block
with the lowercased source URL. -/
theorem topBlocks_img (maxR : Nat) (attrs : List (Str × Str)) (src : Str)
    (hsrc : getAttr attrs "src".data = some src) (hne : src ≠ []) :
    topBlocks maxR (HNode.elem "IMG".data attrs []) = [NotionBlock.image (jsToLower src)] := by
  have hse : (jsToLower src).isEmpty = false := by
    rw [Bool.eq_false_iff]
    intro h
    exact hne (by simpa [jsToLower] using List.isEmpty_iff.mp h)
  simp [topBlocks, processNode, hsrc, hse]

/-- A one-paragraph root child used by the C9 witness. -/
def paraA : HNode := HNode.elem "P".data [] [HNode.text "a".data]

/-- A one-paragraph root child used by the C9 witness. -/
def paraB : HNode := HNode.elem "P".data [] [HNode.text "b".data]

/-- `<p>a</p><p>b<img src="https://x/y.png"></p>`: the image sits inside
the second paragraph, after its text. -/
def c9Input : List HNode :=
  [paraA,
   HNode.elem "P".data [] [HNode.text "b".data,
     HNode.elem "IMG".data [("src".data, "https://x/y.png".data)] []]]

/-- C9 counterexample: for an image nested inside a paragraph after that
paragraph's text, the image block is emitted immediately during the
tree walk and therefore precedes the paragraph block that holds text
occurring before it in document order — the emitted order is
paragraph "a", image, paragraph "b", not the document order
paragraph "a", paragraph "b", image. -/
theorem C9_counterexample :
    createPageChildren (some c9Input) =
      [NotionBlock.paragraph [RichText.plain "a".data], NotionBlock.image "https://x/y.png".data,
       NotionBlock.paragraph [RichText.plain "b".data]] ∧
    [NotionBlock.paragraph [RichText.plain "a".data], NotionBlock.image "https://x/y.png".data,
       NotionBlock.paragraph [RichText.plain "b".data]] ≠
      [NotionBlock.paragraph [RichText.plain "a".data],
       NotionBlock.paragraph [RichText.plain "b".data],
       NotionBlock.image "https://x/y.png".data] := by decide

/-- C9 (amended): an image element that is a root-level sibling of the
paragraphs yields a standalone image block referencing its (lowercased)
source URL at its document-order position relative to the surrounding
paragraph blocks; an image nested inside a paragraph is instead emitted
immediately, before its enclosing paragraph's block. -/
theorem C9_amended (maxR : Nat) (pre post : List HNode) (attrs : List (Str × Str)) (src : Str)
    (hsrc : getAttr attrs "src".data = some src) (hne : src ≠ []) :
    convertContent maxR (pre ++ HNode.elem "IMG".data attrs [] :: post) =
      convertContent maxR pre ++ NotionBlock.image (jsToLower src) :: convertContent maxR post := by
  rw [convertContent_eq, convertContent_eq, convertContent_eq, topBlocksList_append]
  have : topBlocksList maxR (HNode.elem "IMG".data attrs [] :: post) =
      topBlocks maxR (HNode.elem "IMG".data attrs []) ++ topBlocksList maxR post := rfl
  rw [this, topBlocks_img maxR attrs src hsrc hne]
  simp

theorem C9_amended_witness :
    convertContent MAX_RICH_TEXT_LENGTH
        ([paraA] ++ HNode.elem "IMG".data [("src".data, "https://x/y.png".data)] [] :: [paraB]) =
      convertContent MAX_RICH_TEXT_LENGTH [paraA] ++
        NotionBlock.image (jsToLower "https://x/y.png".data) ::
        convertContent MAX_RICH_TEXT_LENGTH [paraB] :=
  C9_amended MAX_RICH_TEXT_LENGTH [paraA] [paraB]
    [("src".data, "https://x/y.png".data)] "https://x/y.png".data (by decide) (by decide)

/-! ## C3 -/

/-- A date environment in which the probed text is free-form unparsable
(as JS `new Date` is on non-date text): `new Date` yields an Invalid
Date on every input here, `dayjs()` "now" is 42. -/
def garbageDateEnv : DateEnv := ⟨fun _ _ => none, 42, fun _ => none⟩

/-- C3 counterexample: with no date-format pattern configured, the code
takes the `new Date(dateText)` branch, so unparsable text yields an
Invalid Date (`none`) — not a valid fallback timestamp equal to the
current time (`some 42`). -/
theorem C3_counterexample :
    computeArticleDate garbageDateEnv none "SomeSource".data "garbage".data = none ∧
    computeArticleDate garbageDateEnv none "SomeSource".data "garbage".data ≠
      some garbageDateEnv.nowTime := by decide

/-- C3 (amended): date parsing is a total function (it never throws).
When the source rule carries a non-empty date-format pattern and the
extracted date text is non-empty, the result is always a valid
timestamp, and an unparsable normalized text falls back to the current
time; on the remaining path the result is exactly `new Date(dateText)`,
which is an Invalid Date for unparsable text. -/
theorem C3_amended (env : DateEnv) (fmt sourceName dateText : Str)
    (hfmt : fmt.isEmpty = false) (htext : dateText.isEmpty = false) :
    (computeArticleDate env (some fmt) sourceName dateText).isSome = true ∧
    (env.dayjsParse (normalizeDateText sourceName dateText) fmt = none →
      computeArticleDate env (some fmt) sourceName dateText = some env.nowTime) ∧
    computeArticleDate env none sourceName dateText = env.newDate dateText := by
  refine ⟨?_, ?_, rfl⟩
  · simp only [computeArticleDate, hfmt, htext]
    cases env.dayjsParse (normalizeDateText sourceName dateText) fmt <;> simp
  · intro hparse
    simp [computeArticleDate, hfmt, htext, hparse]

theorem C3_amended_witness :
    (computeArticleDate garbageDateEnv (some "DD".data) "SomeSource".data
      "garbage".data).isSome = true ∧
    (garbageDateEnv.dayjsParse (normalizeDateText "SomeSource".data "garbage".data) "DD".data =
        none →
      computeArticleDate garbageDateEnv (some "DD".data) "SomeSource".data "garbage".data =
        some garbageDateEnv.nowTime) ∧
    computeArticleDate garbageDateEnv none "SomeSource".data "garbage".data =
      garbageDateEnv.newDate "garbage".data :=
  C3_amended garbageDateEnv "DD".data "SomeSource".data "garbage".data (by decide) (by decide)

/-! ## C10 -/

/-- A date environment that observes the text handed to the format
parser: parsing succeeds (with value 111) exactly on `"a.b"` — the text
the claim predicts (`"a.b."` with trailing periods stripped). -/
def probeDateEnv : DateEnv :=
  ⟨fun s _ => if s == "a.b".data then some 111 else none, 999, fun _ => none⟩

/-- C10 counterexample: for Atomix with a format pattern, the code
normalizes `"a.b."` by removing the FIRST period and trimming, giving
`"ab."`; the claim's trailing-strip normalization would give `"a.b"`.
Observably: a parser that accepts exactly `"a.b"` is never given it, so
the code falls back to "now" (999) instead of the parsed value 111. -/
theorem C10_counterexample :
    atomixNormalizeDate "a.b.".data = "ab.".data ∧
    stripTrailingPeriods "a.b.".data = "a.b".data ∧
    atomixNormalizeDate "a.b.".data ≠ stripTrailingPeriods "a.b.".data ∧
    probeDateEnv.dayjsParse "a.b".data "DD".data = some 111 ∧
    computeArticleDate probeDateEnv (some "DD".data) "Atomix".data "a.b.".data = some 999 := by
  decide

theorem jsReplaceFirst_single_end (c : Char) (t : Str) (h : c ∉ t) :
    jsReplaceFirst (t ++ [c]) [c] [] = t := by
  induction t with
  | nil => simp [jsReplaceFirst, List.isPrefixOf]
  | cons x xs ih =>
    have hx : (c == x) = false := beq_eq_false_iff_ne.mpr (by
      intro hc
      exact h (by simp [hc]))
    simp only [List.cons_append, jsReplaceFirst, List.isPrefixOf, hx, Bool.false_and,
      Bool.false_eq_true, if_false]
    exact congrArg (x :: ·) (ih (by intro hc; exact h (by simp [hc])))

/-- C10 (amended): on the format-pattern path the parser receives, for
the source named Atomix, the date text with its FIRST period occurrence
removed and the result trimmed (`atomixNormalizeDate`); for every other
source it receives the text unmodified.  When the text's only period is
a single trailing one (and the text has no surrounding whitespace),
this coincides with the claim's trailing-period strip. -/
theorem C10_amended :
    (∀ (env : DateEnv) (fmt dateText : Str), fmt.isEmpty = false → dateText.isEmpty = false →
      computeArticleDate env (some fmt) "Atomix".data dateText =
        some ((env.dayjsParse (atomixNormalizeDate dateText) fmt).getD env.nowTime)) ∧
    (∀ (env : DateEnv) (fmt dateText nm : Str), fmt.isEmpty = false → dateText.isEmpty = false →
      (nm == "Atomix".data) = false →
      computeArticleDate env (some fmt) nm dateText =
        some ((env.dayjsParse dateText fmt).getD env.nowTime)) ∧
    (∀ t : Str, '.' ∉ t → (∀ x ∈ t, isJsSpace x = false) →
      atomixNormalizeDate (t ++ ".".data) = t ∧ stripTrailingPeriods (t ++ ".".data) = t) := by
  refine ⟨?_, ?_, ?_⟩
  · intro env fmt dateText hfmt htext
    simp only [computeArticleDate, hfmt, htext, normalizeDateText, Bool.not_false,
      Bool.and_self, if_true, beq_self_eq_true]
    cases env.dayjsParse (atomixNormalizeDate dateText) fmt <;> simp
  · intro env fmt dateText nm hfmt htext hnm
    simp only [computeArticleDate, hfmt, htext, normalizeDateText, hnm, Bool.not_false,
      Bool.and_self, if_true, Bool.false_eq_true, if_false]
    cases env.dayjsParse dateText fmt <;> simp
  · intro t hdot hspace
    constructor
    · rw [atomixNormalizeDate]
      have : ".".data = ['.'] := rfl
      rw [this, jsReplaceFirst_single_end '.' t hdot]
      exact jsTrim_of_no_space hspace
    · rw [stripTrailingPeriods]
      have h1 : (t ++ ".".data).reverse = '.' :: t.reverse := by simp
      rw [h1]
      have h2 : List.dropWhile (· == '.') ('.' :: t.reverse) =
          List.dropWhile (· == '.') t.reverse := by
        simp [List.dropWhile]
      rw [h2, dropWhile_eq_self_of (by
        intro x hx
        exact beq_eq_false_iff_ne.mpr (by
          intro hc
          exact hdot (by rw [← hc]; exact (List.mem_reverse).mp hx)))]
      simp

theorem C10_amended_witness :
    computeArticleDate probeDateEnv (some "DD".data) "Atomix".data "a.b.".data =
      some ((probeDateEnv.dayjsParse (atomixNormalizeDate "a.b.".data) "DD".data).getD
        probeDateEnv.nowTime) :=
  C10_amended.1 probeDateEnv "DD".data "a.b.".data (by decide) (by decide)

/-! ## C5 -/

theorem isPrefixOf_append_self (p t : Str) : p.isPrefixOf (p ++ t) = true := by
  induction p with
  | nil => simp [List.isPrefixOf]
  | cons c cs ih => simp [List.isPrefixOf, ih]

theorem splitOnFuel_single_none (c : Char) (s cur : Str) (fuel : Nat)
    (hf : s.length ≤ fuel) (h : c ∉ s) :
    splitOnFuel [c] fuel s cur = [cur.reverse ++ s] := by
  induction s generalizing fuel cur with
  | nil => cases fuel <;> simp [splitOnFuel]
  | cons x xs ih =>
    cases fuel with
    | zero => simp at hf
    | succ f =>
      have hx : (c == x) = false := beq_eq_false_iff_ne.mpr (by
        intro hc
        exact h (by simp [hc]))
      simp only [splitOnFuel, List.isPrefixOf, hx, Bool.false_and, Bool.false_eq_true, if_false]
      rw [ih (x :: cur) f (by simp at hf; omega)
        (by intro hc; exact h (by simp [hc]))]
      simp

theorem splitOnFuel_single_head (c : Char) (s cur : Str) (fuel : Nat) :
    splitOnFuel [c] (fuel + 1) (c :: s) cur = cur.reverse :: splitOnFuel [c] fuel s [] := by
  simp [splitOnFuel, List.isPrefixOf]

theorem splitOnFuel_single_skip (c x : Char) (s cur : Str) (fuel : Nat) (h : (c == x) = false) :
    splitOnFuel [c] (fuel + 1) (x :: s) cur = splitOnFuel [c] fuel s (x :: cur) := by
  simp [splitOnFuel, List.isPrefixOf, h]

/-- Splitting `p ++ [c] ++ s` on the single character `c`, when neither
field contains `c`, yields exactly the two fields. -/
theorem splitOnFuel_two_fields (c : Char) (p s cur : Str) (fuel : Nat)
    (hp : c ∉ p) (hs : c ∉ s) (hf : p.length + s.length + 1 ≤ fuel) :
    splitOnFuel [c] fuel (p ++ c :: s) cur = [cur.reverse ++ p, s] := by
  induction p generalizing cur fuel with
  | nil =>
    cases fuel with
    | zero => simp at hf
    | succ g =>
      simp only [List.nil_append]
      rw [splitOnFuel_single_head]
      rw [splitOnFuel_single_none c s [] g (by omega) hs]
      simp
  | cons x xs ih =>
    cases fuel with
    | zero => simp at hf
    | succ g =>
      have hx : (c == x) = false := beq_eq_false_iff_ne.mpr (by
        intro hc
        exact hp (by simp [hc]))
      rw [List.cons_append, splitOnFuel_single_skip c x _ _ g hx]
      rw [ih (x :: cur) g (by intro hc; exact hp (by simp [hc])) (by simp at hf ⊢; omega)]
      simp

/-- Splitting a class token `post-X` on `"-"`, for dash-free `X`, yields
`["post", X]` (so `split("-")[1]` is `X`). -/
theorem jsSplit_post_dash (tok : Str) (h : '-' ∉ tok) :
    jsSplit ("post-".data ++ tok) "-".data = ["post".data, tok] := by
  have hshape : "post-".data ++ tok = "post".data ++ '-' :: tok := rfl
  rw [jsSplit, hshape, if_neg (by simp)]
  rw [splitOnFuel_two_fields '-' "post".data tok [] ("post".data ++ '-' :: tok).length
    (by decide) h (by simp; omega)]
  simp

/-- An article page whose first `div.post` match carries the class
`post-abc` (a `post-` token with a non-numeric suffix). -/
def postAbcDoc : PageDoc := ⟨fun _ => [], fun _ => [], fun _ => "post-abc".data⟩

/-- C5 counterexample: the code takes `split("-")[1]` of the first
`post-` class token without checking that it is numeric: for class
`post-abc` it returns `"abc"`, whereas the claim's derivation (numeric
suffix or else the URL fallback) yields the stripped final URL segment
`"myarticle"`. -/
theorem C5_counterexample :
    scrapeEntryId postAbcDoc "div.post".data "SomeSource".data "https://s".data
      "https://s/my-article".data = "abc".data ∧
    claimEntryId postAbcDoc "div.post".data "SomeSource".data "https://s".data
      "https://s/my-article".data = "myarticle".data ∧
    "abc".data ≠ "myarticle".data := by decide

/-- C5 (amended): for the configured selector `div.post`, when the first
match's class attribute is the single token `post-X` with `X` non-empty
and dash-free, the derived id is `X` itself — the segment between the
first and second dash, taken without any numeric validation — for
ordinary sources, and the query-parameter URL `{sourceUrl}/?p=X` for
the source named Atomix; when the class attribute is empty, the id
falls back to the final URL path segment stripped of non-alphanumeric
characters. -/
theorem C5_amended :
    (∀ (doc : PageDoc) (surl url tok nm : Str),
      jsSplit (doc.classOf "div.post".data) " ".data = ["post-".data ++ tok] → tok ≠ [] →
      '-' ∉ tok → (nm == "Atomix".data) = false →
      scrapeEntryId doc "div.post".data nm surl url = tok) ∧
    (∀ (doc : PageDoc) (surl url tok : Str),
      jsSplit (doc.classOf "div.post".data) " ".data = ["post-".data ++ tok] → tok ≠ [] →
      '-' ∉ tok →
      scrapeEntryId doc "div.post".data "Atomix".data surl url =
        surl ++ "/?p=".data ++ tok) ∧
    (∀ (doc : PageDoc) (nm surl url : Str),
      doc.classOf "div.post".data = [] →
      scrapeEntryId doc "div.post".data nm surl url = urlFallbackId url) := by
  have hsel : jsSplit "div.post".data ", ".data = ["div.post".data] := by decide
  refine ⟨?_, ?_, ?_⟩
  · intro doc surl url tok nm hclass htok hdash hnm
    have htokE : tok.isEmpty = false := by
      rw [Bool.eq_false_iff]; intro h; exact htok (List.isEmpty_iff.mp h)
    have h2 : postTokenId nm surl ["post-".data ++ tok] = tok := by
      unfold postTokenId
      rw [if_pos (show jsStartsWith "post-".data ("post-".data ++ tok) = true from
        isPrefixOf_append_self "post-".data tok)]
      rw [jsSplit_post_dash tok hdash]
      simp [List.getD, hnm, htokE]
    have h1 : entryIdFromSelectors doc nm surl ["div.post".data] = tok := by
      unfold entryIdFromSelectors
      rw [hclass, h2]
      simp [htokE]
    have hfrom : (if ("div.post".data).isEmpty = true then ([] : Str)
        else entryIdFromSelectors doc nm surl (jsSplit "div.post".data ", ".data)) = tok := by
      rw [if_neg (by decide), hsel, h1]
    unfold scrapeEntryId
    rw [hfrom]
    simp [htokE]
  · intro doc surl url tok hclass htok hdash
    have hne : (surl ++ "/?p=".data ++ tok).isEmpty = false := by
      rw [Bool.eq_false_iff]
      intro h
      have := List.isEmpty_iff.mp h
      simp [List.append_eq_nil] at this
    have h2 : postTokenId "Atomix".data surl ["post-".data ++ tok] =
        surl ++ "/?p=".data ++ tok := by
      unfold postTokenId
      rw [if_pos (show jsStartsWith "post-".data ("post-".data ++ tok) = true from
        isPrefixOf_append_self "post-".data tok)]
      rw [jsSplit_post_dash tok hdash]
      simp [List.getD, hne]
    have h1 : entryIdFromSelectors doc "Atomix".data surl ["div.post".data] =
        surl ++ "/?p=".data ++ tok := by
      unfold entryIdFromSelectors
      rw [hclass, h2]
      simp [hne]
    have hfrom : (if ("div.post".data).isEmpty = true then ([] : Str)
        else entryIdFromSelectors doc "Atomix".data surl (jsSplit "div.post".data ", ".data)) =
        surl ++ "/?p=".data ++ tok := by
      rw [if_neg (by decide), hsel, h1]
    unfold scrapeEntryId
    rw [hfrom]
    simp [hne]
  · intro doc nm surl url hclass
    have hpt : postTokenId nm surl [([] : Str)] = [] := by
      unfold postTokenId
      rw [if_neg (by decide)]
      rfl
    have h1 : entryIdFromSelectors doc nm surl ["div.post".data] = [] := by
      unfold entryIdFromSelectors
      rw [hclass]
      rw [show jsSplit [] " ".data = [([] : Str)] from rfl, hpt]
      rfl
    have hfrom : (if ("div.post".data).isEmpty = true then ([] : Str)
        else entryIdFromSelectors doc nm surl (jsSplit "div.post".data ", ".data)) = [] := by
      rw [if_neg (by decide), hsel, h1]
    unfold scrapeEntryId
    rw [hfrom]
    simp

theorem C5_amended_witness :
    scrapeEntryId postAbcDoc "div.post".data "SomeSource".data "https://s".data
      "https://s/my-article".data = "abc".data :=
  C5_amended.1 postAbcDoc "https://s".data "https://s/my-article".data "abc".data
    "SomeSource".data (by decide) (by decide) (by decide) (by decide)

/-! ## C4 -/

/-- A listing page whose link selector matches 3 anchors with absolute
hrefs and whose next-page control is absent (so the un-guarded
`waitForSelector(nextPageSelector)` would time out and throw). -/
def page3Links : ListingPage :=
  { linkWaitOk := true,
    hrefs := [some "https://s/a".data, some "https://s/b".data, some "https://s/c".data],
    nextWaitOk := false, nextFound := false, navigateOk := false }

/-- C4 counterexample: with a next-page selector configured but the
control absent on the page, the timeout error of the un-guarded
`page.waitForSelector(nextPageSelector)` escapes to the outer catch,
which returns `[]` — the 3 already-accumulated links are discarded, not
returned as partial results. -/
theorem C4_counterexample :
    getArticleLinks defaultCrawlerConfig (fun _ => page3Links) true "https://s".data
      (some "div.next".data) = [] ∧
    ([] : List Str) ≠ ["https://s/a".data, "https://s/b".data, "https://s/c".data] := by
  decide

/-- C4 (amended): an error during the next-page-control wait (a
configured control absent from the page) aborts discovery and returns
the EMPTY list, discarding the links accumulated so far; the 3-anchor
scenario returns exactly the 3 URLs only when no next-page selector is
configured (errors in the link-selector wait or in navigation, by
contrast, break the loop and keep partial results). -/
theorem C4_amended :
    (∀ (cfg : CrawlerConfig) (world : Nat → ListingPage) (surl sel : Str),
      (world 1).linkWaitOk = true → (world 1).nextWaitOk = false → 1 ≤ cfg.maxPages →
      getArticleLinks cfg world true surl (some sel) = []) ∧
    (∀ (cfg : CrawlerConfig) (world : Nat → ListingPage) (surl a b c : Str),
      (world 1).linkWaitOk = true → (world 1).hrefs = [some a, some b, some c] →
      a.isEmpty = false → b.isEmpty = false → c.isEmpty = false →
      jsStartsWith "http".data a = true → jsStartsWith "http".data b = true →
      jsStartsWith "http".data c = true →
      isValidLink a = true → isValidLink b = true → isValidLink c = true →
      a ≠ b → a ≠ c → b ≠ c →
      1 ≤ cfg.maxPages → 3 ≤ cfg.maxArticlesPerRun →
      getArticleLinks cfg world true surl none = [a, b, c]) := by
  constructor
  · intro cfg world surl sel hlw hnw hmp
    obtain ⟨m, hm⟩ : ∃ m, cfg.maxPages = m + 1 := ⟨cfg.maxPages - 1, by omega⟩
    have hloop : (linksLoop world surl (some sel) (m + 1) 1 []).1 = .error () := by
      simp [linksLoop, hlw, hnw]
    unfold getArticleLinks
    rw [hm]
    simp [hloop]
  · intro cfg world surl a b c hlw hhrefs haE hbE hcE hsa hsb hsc hva hvb hvc hab hac hbc
      hmp hmax
    obtain ⟨m, hm⟩ : ∃ m, cfg.maxPages = m + 1 := ⟨cfg.maxPages - 1, by omega⟩
    have hext : extractPageLinks surl (world 1).hrefs = [a, b, c] := by
      rw [hhrefs]
      simp only [extractPageLinks, List.filterMap_cons, List.filterMap_nil, haE, hbE, hcE,
        hsa, hsb, hsc, Bool.false_eq_true, if_false, if_true]
    have hloop : (linksLoop world surl none (m + 1) 1 []).1 = .ok [a, b, c] := by
      simp [linksLoop, hlw, hext]
    have hdedup : dedupeKeepFirst [] [a, b, c] = [a, b, c] := by
      simp [dedupeKeepFirst, List.contains, hab, hac, hbc,
        Ne.symm hab, Ne.symm hac, Ne.symm hbc]
    have hfilter : List.filter isValidLink [a, b, c] = [a, b, c] := by
      simp [List.filter, hva, hvb, hvc]
    unfold getArticleLinks
    rw [hm]
    simp only [Bool.not_true, Bool.false_eq_true, if_false, hloop]
    rw [hdedup, hfilter]
    exact List.take_of_length_le (by simp; omega)

theorem C4_amended_witness :
    getArticleLinks defaultCrawlerConfig (fun _ => page3Links) true "https://s".data none =
      ["https://s/a".data, "https://s/b".data, "https://s/c".data] :=
  C4_amended.2 defaultCrawlerConfig (fun _ => page3Links) "https://s".data
    "https://s/a".data "https://s/b".data "https://s/c".data
    rfl rfl (by decide) (by decide) (by decide) (by decide) (by decide) (by decide)
    (by decide) (by decide) (by decide) (by decide) (by decide) (by decide)
    (by decide) (by decide)

/-! ## C6 -/

/-- The value one selector contributes in `getContentFromSelectors`: all
matched elements' markup, trimmed, with empties dropped. -/
def contentValue (doc : PageDoc) (sel : Str) : List Str :=
  ((doc.htmlsOf sel).map jsTrim).filter (fun h => !h.isEmpty)

theorem textChain_skip (doc : PageDoc) (pre suf : List Str) (sel : Str)
    (hpre : ∀ s ∈ pre, jsTrim (doc.textOf s) = [])
    (hsel : jsTrim (doc.textOf sel) ≠ []) :
    textChain doc (pre ++ sel :: suf) = jsTrim (doc.textOf sel) := by
  induction pre with
  | nil =>
    have hE : (jsTrim (doc.textOf sel)).isEmpty = false := by
      rw [Bool.eq_false_iff]; intro h; exact hsel (List.isEmpty_iff.mp h)
    simp [textChain, hE]
  | cons p ps ih =>
    have hp : jsTrim (doc.textOf p) = [] := hpre p (by simp)
    simp only [List.cons_append, textChain, hp, List.isEmpty_nil, if_true]
    exact ih (fun s hs => hpre s (by simp [hs]))

theorem textChain_all_empty (doc : PageDoc) (sels : List Str)
    (h : ∀ s ∈ sels, jsTrim (doc.textOf s) = []) :
    textChain doc sels = [] := by
  induction sels with
  | nil => rfl
  | cons p ps ih =>
    have hp : jsTrim (doc.textOf p) = [] := h p (by simp)
    simp only [textChain, hp, List.isEmpty_nil, if_true]
    exact ih (fun s hs => h s (by simp [hs]))

theorem contentChain_skip (doc : PageDoc) (pre suf : List Str) (sel : Str)
    (hpre : ∀ s ∈ pre, contentValue doc s = [])
    (hsel : contentValue doc sel ≠ []) :
    contentChain doc (pre ++ sel :: suf) = joinBlankLine (contentValue doc sel) := by
  induction pre with
  | nil =>
    have hE : (contentValue doc sel).isEmpty = false := by
      rw [Bool.eq_false_iff]; intro h; exact hsel (List.isEmpty_iff.mp h)
    simp only [List.nil_append, contentChain]
    rw [show ((doc.htmlsOf sel).map jsTrim).filter (fun h => !h.isEmpty) =
      contentValue doc sel from rfl]
    simp [hE]
  | cons p ps ih =>
    have hp : contentValue doc p = [] := hpre p (by simp)
    simp only [List.cons_append, contentChain]
    rw [show ((doc.htmlsOf p).map jsTrim).filter (fun h => !h.isEmpty) =
      contentValue doc p from rfl, hp]
    simp only [List.isEmpty_nil, if_true]
    exact ih (fun s hs => hpre s (by simp [hs]))

theorem contentChain_all_empty (doc : PageDoc) (sels : List Str)
    (h : ∀ s ∈ sels, contentValue doc s = []) :
    contentChain doc sels = [] := by
  induction sels with
  | nil => rfl
  | cons p ps ih =>
    have hp : contentValue doc p = [] := h p (by simp)
    simp only [contentChain]
    rw [show ((doc.htmlsOf p).map jsTrim).filter (fun h => !h.isEmpty) =
      contentValue doc p from rfl, hp]
    simp only [List.isEmpty_nil, if_true]
    exact ih (fun s hs => h s (by simp [hs]))

/-- C6: selector fallback chains are first-match-wins.  If the first K
selectors of the chain yield no non-empty output and the (K+1)-th
yields non-empty output, `getTextFromSelectors` returns the (K+1)-th
selector's first match's trimmed text, and `getContentFromSelectors`
returns the (K+1)-th selector's matched elements' trimmed markup joined
with a blank-line separator; when every selector yields nothing the
field is the empty string.  (For a non-empty selector string, both
helpers run their chain on the `", "`-split selector list.) -/
theorem C6_first_match_wins :
    (∀ (doc : PageDoc) (pre suf : List Str) (sel : Str),
      (∀ s ∈ pre, jsTrim (doc.textOf s) = []) → jsTrim (doc.textOf sel) ≠ [] →
      textChain doc (pre ++ sel :: suf) = jsTrim (doc.textOf sel)) ∧
    (∀ (doc : PageDoc) (sels : List Str), (∀ s ∈ sels, jsTrim (doc.textOf s) = []) →
      textChain doc sels = []) ∧
    (∀ (doc : PageDoc) (pre suf : List Str) (sel : Str),
      (∀ s ∈ pre, contentValue doc s = []) → contentValue doc sel ≠ [] →
      contentChain doc (pre ++ sel :: suf) = joinBlankLine (contentValue doc sel)) ∧
    (∀ (doc : PageDoc) (sels : List Str), (∀ s ∈ sels, contentValue doc s = []) →
      contentChain doc sels = []) ∧
    (∀ (doc : PageDoc) (s : Str), s.isEmpty = false →
      getTextFromSelectors doc s = textChain doc (jsSplit s ", ".data) ∧
      getContentFromSelectors doc s = contentChain doc (jsSplit s ", ".data)) :=
  ⟨textChain_skip, textChain_all_empty, contentChain_skip, contentChain_all_empty,
   fun doc s hs => ⟨by rw [getTextFromSelectors, if_neg (by simp [hs])],
     by rw [getContentFromSelectors, if_neg (by simp [hs])]⟩⟩

/-- A document on which the first selector of each chain misses and the
second matches. -/
def demoDoc : PageDoc :=
  ⟨fun sel => if sel == "h2".data then " Title ".data else [],
   fun sel => if sel == "div.c".data then [" <p>x</p> ".data, []] else [],
   fun _ => []⟩

theorem C6_first_match_wins_witness :
    textChain demoDoc (["h1".data] ++ "h2".data :: []) = jsTrim (demoDoc.textOf "h2".data) ∧
    contentChain demoDoc (["div.a".data] ++ "div.c".data :: []) =
      joinBlankLine (contentValue demoDoc "div.c".data) :=
  ⟨C6_first_match_wins.1 demoDoc ["h1".data] [] "h2".data (by decide) (by decide),
   C6_first_match_wins.2.2.1 demoDoc ["div.a".data] [] "div.c".data (by decide) (by decide)⟩
